import Mathlib

/-!
Verification of the `goto` URL-shortener store (`src/store.go`, `src/main.go`).

The store keeps an in-memory mapping from generated short keys to long URLs.
We embed the Go code shallowly:
* the Go map `urls map[string]string` becomes an association list
  `List (String × String)` (keys are unique in every reachable state because
  `Set` only inserts absent keys; none of the theorems below need that);
* `Get`, `Set` and `Count` are direct translations of the methods in
  `src/store.go`;
* the unbounded `for` loop of `Put` becomes a fuel-indexed recursion:
  `Put fuel s url = none` models the loop still spinning after `fuel`
  iterations, and termination of the Go loop is `∃ fuel, Put fuel s url ≠ none`
  (each loop iteration is state-preserving when the insert fails, so the
  fueled function at fuel `n` computes exactly the first `n` iterations);
* the `Redirect` handler of `src/main.go` is embedded as a function from the
  requested key to the chosen redirect target, abstracting the HTTP plumbing.
-/

/-- Modelled from the spec: `genKey` is called by `Put` in `src/store.go` but
its definition is not under `src/`.  Spec §4.1 requires only a pure, total,
deterministic function of the ordinal (the current entry count) producing a
short string key, and the course text says the exact algorithm is of little
importance; we use the decimal rendering of the ordinal. -/
def genKey (n : Nat) : String :=
  toString n

/-- The store of `src/store.go`: `type URLStore struct { urls map[string]string }`.
The Go map is embedded as an association list. -/
structure URLStore where
  urls : List (String × String)
deriving Repr, DecidableEq

/-- The embedding of Go's map indexing `s.urls[key]`, which yields the value
and reports presence (the comma-ok form): `some v` when present, `none` when
absent. -/
def URLStore.find (s : URLStore) (key : String) : Option String :=
  s.urls.lookup key

/-- `func (s *URLStore) Get(key string) string { return s.urls[key] }` —
a missing key yields the zero value for `string`, the empty string. -/
def URLStore.Get (s : URLStore) (key : String) : String :=
  (s.find key).getD ""

/-- `func (s *URLStore) Set(key, url string) bool` — the comma-ok presence
test followed by conditional insert.  Go mutates the receiver; the embedding
returns the boolean result together with the post state. -/
def URLStore.Set (s : URLStore) (key url : String) : Bool × URLStore :=
  match s.find key with
  | some _ => (false, s)
  | none => (true, ⟨(key, url) :: s.urls⟩)

/-- `func (s *URLStore) Count() int { return len(s.urls) }`. -/
def URLStore.Count (s : URLStore) : Nat :=
  s.urls.length

/-- `func (s *URLStore) Put(url string) string` — the unbounded retry loop
`for { key := genKey(s.Count()); if ok := s.Set(key, url); ok { return key } }`
as a fuel-indexed recursion.  A failing `Set` leaves the receiver unchanged,
so the next iteration runs on the same state. -/
def URLStore.Put : Nat → URLStore → String → Option (String × URLStore)
  | 0, _, _ => none
  | fuel + 1, s, url =>
    match s.Set (genKey s.Count) url with
    | (true, s1) => some (genKey s.Count, s1)
    | (false, _) => URLStore.Put fuel s url

/-- The two outcomes of the `Redirect` handler in `src/main.go`: redirect to
the `/add` form when the key is unknown, or redirect to the stored URL. -/
inductive RedirectTarget where
  | toAddForm : RedirectTarget
  | toUrl : String → RedirectTarget
deriving Repr, DecidableEq

/-- `func Redirect(w http.ResponseWriter, r *http.Request)` from `src/main.go`,
with the HTTP plumbing abstracted: the handler takes the key extracted from
the request path (`r.URL.Path[1:]`), looks it up via `store.Get`, and
redirects to `/add` when the result is the empty string, else to the URL. -/
def Redirect (s : URLStore) (key : String) : RedirectTarget :=
  let url := s.Get key
  if url = "" then RedirectTarget.toAddForm else RedirectTarget.toUrl url

/-- A persisted (key, url) pair, the course's `type record struct { Key, URL string }`. -/
structure Record where
  key : String
  url : String
deriving Repr, DecidableEq

/-- Modelled from the spec: the WriteQueue and the enqueue step of `Put` are
not under `src/` — `src/store.go`'s `Put` performs only the insert and the
`save` channel appears only in the course's later version, whose code is not
in `src/`.  Spec §3/§4.4 describe the WriteQueue as an ordered FIFO of pending
Records; we embed it as a list whose tail is the enqueue end. -/
structure QueueURLStore where
  urls : List (String × String)
  save : List Record
deriving Repr, DecidableEq

/-- Modelled from the spec (§2, §4.5): `Put` with the write queue — the same
collision-retry loop as `URLStore.Put`, but on success it enqueues the
accepted record onto the WriteQueue before returning the key
(`s.save <- record{key, url}` in the course text). -/
def QueueURLStore.Put : Nat → QueueURLStore → String → Option (String × QueueURLStore)
  | 0, _, _ => none
  | fuel + 1, s, url =>
    match URLStore.Set ⟨s.urls⟩ (genKey s.urls.length) url with
    | (true, s1) => some (genKey s.urls.length, ⟨s1.urls, s.save ++ [⟨genKey s.urls.length, url⟩]⟩)
    | (false, _) => QueueURLStore.Put fuel s url

/-- One client-visible store operation, for reasoning about arbitrary
sequences of calls (`Put` carries the fuel bounding its retry loop). -/
inductive Op where
  | opGet (key : String)
  | opSet (key url : String)
  | opCount
  | opPut (fuel : Nat) (url : String)
deriving Repr, DecidableEq

/-- Executing one operation: the post state together with the accepted
(key, url) insertions this operation performed via a successful `Set`
(`Get` and `Count` do not change the store; a `Put` whose loop is still
spinning when its fuel runs out has not changed the store either). -/
def stepOp (s : URLStore) : Op → URLStore × List (String × String)
  | .opGet _ => (s, [])
  | .opCount => (s, [])
  | .opSet k v =>
    match s.Set k v with
    | (true, s1) => (s1, [(k, v)])
    | (false, _) => (s, [])
  | .opPut fuel v =>
    match URLStore.Put fuel s v with
    | some (k, s1) => (s1, [(k, v)])
    | none => (s, [])

/-- Executing a sequence of operations, collecting every accepted insertion
in order. -/
def runOps (s : URLStore) : List Op → URLStore × List (String × String)
  | [] => (s, [])
  | op :: ops =>
    match stepOp s op with
    | (s1, acc) =>
      match runOps s1 ops with
      | (s2, accs) => (s2, acc ++ accs)

/-! ### Basic lemmas about `find`, `Set` and `Put` -/

theorem URLStore.find_cons (k v : String) (l : List (String × String))
    (k1 : String) :
    URLStore.find ⟨(k, v) :: l⟩ k1 =
      if k1 = k then some v else URLStore.find ⟨l⟩ k1 := by
  simp only [URLStore.find, List.lookup]
  rcases h : k1 == k with _ | _
  · simp [beq_eq_false_iff_ne.mp h]
  · simp [beq_iff_eq.mp h]

theorem URLStore.find_cons_self (k v : String) (l : List (String × String)) :
    URLStore.find ⟨(k, v) :: l⟩ k = some v := by
  simp [URLStore.find_cons]

theorem URLStore.set_of_present {s : URLStore} {key : String} (url : String)
    (h : s.find key ≠ none) : s.Set key url = (false, s) := by
  unfold URLStore.Set
  rcases h1 : s.find key with _ | v
  · exact absurd h1 h
  · rfl

theorem URLStore.set_of_absent {s : URLStore} {key : String} (url : String)
    (h : s.find key = none) :
    s.Set key url = (true, ⟨(key, url) :: s.urls⟩) := by
  unfold URLStore.Set
  rw [h]

/-- When the candidate key `genKey (s.Count)` is already taken, every
iteration of `Put`'s loop fails without changing the state, so the loop never
returns, whatever the fuel. -/
theorem URLStore.put_stuck {s : URLStore} {url : String}
    (h : s.find (genKey s.Count) ≠ none) :
    ∀ fuel, URLStore.Put fuel s url = none := by
  intro fuel
  induction fuel with
  | zero => rfl
  | succ n ih =>
    unfold URLStore.Put
    rw [URLStore.set_of_present url h]
    exact ih

/-- Inserting a fresh key preserves every existing binding. -/
theorem URLStore.find_insert (k0 u : String) (s : URLStore) (k v : String)
    (h : s.find k = some v) (h0 : s.find k0 = none) :
    URLStore.find ⟨(k0, u) :: s.urls⟩ k = some v := by
  rw [URLStore.find_cons]
  by_cases hk : k = k0
  · rw [hk] at h
    rw [h] at h0
    exact absurd h0 (by simp)
  · simp only [hk, if_false]
    exact h

/-- A successful run of `Put`'s loop returns the candidate key for the
current count, which was absent, and its sole effect is inserting that
binding. -/
theorem URLStore.put_success {fuel : Nat} {s : URLStore} {url k : String}
    {s1 : URLStore} (h : URLStore.Put fuel s url = some (k, s1)) :
    k = genKey s.Count ∧ s.find k = none ∧ s1 = ⟨(k, url) :: s.urls⟩ := by
  induction fuel with
  | zero => exact absurd h (by simp [URLStore.Put])
  | succ n ih =>
    unfold URLStore.Put at h
    rcases h1 : s.find (genKey s.Count) with _ | v
    · rw [URLStore.set_of_absent url h1] at h
      simp only [Option.some.injEq, Prod.mk.injEq] at h
      refine ⟨h.1.symm, h.1 ▸ h1, ?_⟩
      rw [← h.2, h.1]
    · rw [URLStore.set_of_present url (by rw [h1]; exact fun hc => nomatch hc)] at h
      exact ih h

/-- A binding found in the map is not absent. -/
theorem URLStore.find_ne_none (s : URLStore) (key v : String)
    (h : s.find key = some v) : s.find key ≠ none := by
  rw [h]
  exact Option.some_ne_none v

/-- Unfolding `runOps` on a cons, in terms of projections. -/
theorem runOps_cons (s : URLStore) (op : Op) (ops : List Op) :
    runOps s (op :: ops) =
      ((runOps (stepOp s op).1 ops).1,
        (stepOp s op).2 ++ (runOps (stepOp s op).1 ops).2) := rfl

/-- The accepted-insert list of a single operation has at most one element,
so it is its own reverse. -/
theorem stepOp_acc_reverse (s : URLStore) (op : Op) :
    ((stepOp s op).2).reverse = (stepOp s op).2 := by
  cases op with
  | opGet key => rfl
  | opCount => rfl
  | opSet key url =>
    rcases h1 : s.find key with _ | v
    · simp [stepOp, URLStore.set_of_absent url h1]
    · simp [stepOp, URLStore.set_of_present url (URLStore.find_ne_none s key v h1)]
  | opPut fuel url =>
    rcases h1 : URLStore.Put fuel s url with _ | ⟨k, s1⟩
    · simp [stepOp, h1]
    · simp [stepOp, h1]

/-- One operation extends the mapping by exactly its accepted inserts. -/
theorem stepOp_urls (s : URLStore) (op : Op) :
    (stepOp s op).1.urls = (stepOp s op).2 ++ s.urls := by
  cases op with
  | opGet key => rfl
  | opCount => rfl
  | opSet key url =>
    rcases h1 : s.find key with _ | v
    · simp [stepOp, URLStore.set_of_absent url h1]
    · simp [stepOp, URLStore.set_of_present url (URLStore.find_ne_none s key v h1)]
  | opPut fuel url =>
    rcases h1 : URLStore.Put fuel s url with _ | ⟨k, s1⟩
    · simp [stepOp, h1]
    · obtain ⟨-, -, hs⟩ := URLStore.put_success h1
      simp [stepOp, h1, hs]

/-- One operation preserves every existing binding. -/
theorem stepOp_preserve (s : URLStore) (op : Op) (k v : String)
    (h : s.find k = some v) : (stepOp s op).1.find k = some v := by
  cases op with
  | opGet key => exact h
  | opCount => exact h
  | opSet key url =>
    rcases h1 : s.find key with _ | v1
    · simp only [stepOp, URLStore.set_of_absent url h1]
      exact URLStore.find_insert key url s k v h h1
    · simp only [stepOp, URLStore.set_of_present url (URLStore.find_ne_none s key v1 h1)]
      exact h
  | opPut fuel url =>
    rcases h1 : URLStore.Put fuel s url with _ | ⟨k1, s1⟩
    · simp only [stepOp, h1]
      exact h
    · obtain ⟨-, hfind, hs⟩ := URLStore.put_success h1
      simp only [stepOp, h1, hs]
      exact URLStore.find_insert k1 url s k v h hfind

/-- A run of operations preserves every existing binding. -/
theorem runOps_preserve (ops : List Op) (s : URLStore) (k v : String)
    (h : s.find k = some v) : ((runOps s ops).1).find k = some v := by
  induction ops generalizing s with
  | nil => exact h
  | cons op ops ih =>
    rw [runOps_cons]
    exact ih (stepOp s op).1 (stepOp_preserve s op k v h)

/-- The mapping after a run is exactly the accepted inserts of the run
(newest first) on top of the initial mapping. -/
theorem runOps_urls (ops : List Op) (s : URLStore) :
    ((runOps s ops).1).urls = ((runOps s ops).2).reverse ++ s.urls := by
  induction ops generalizing s with
  | nil => rfl
  | cons op ops ih =>
    simp only [runOps_cons]
    rw [ih (stepOp s op).1, stepOp_urls s op, List.reverse_append,
      stepOp_acc_reverse s op, List.append_assoc]

/-! ### Claims -/

/-- C1 (counterexample): a store state whose key space is larger than the
number of stored entries (one entry, while `genKey 0 ≠ genKey 1` shows at
least two keys exist and `genKey 0` is free) on which `Put` never returns:
the single entry occupies the candidate key `genKey 1` for the current count,
so every iteration of the retry loop fails and the loop spins forever. -/
theorem put_termination_counterexample :
    (URLStore.mk [(genKey 1, "u")]).Count = 1 ∧
    genKey 0 ≠ genKey 1 ∧
    (URLStore.mk [(genKey 1, "u")]).find (genKey 0) = none ∧
    ¬ ∃ fuel r, URLStore.Put fuel (URLStore.mk [(genKey 1, "u")]) "v" = some r := by
  refine ⟨by decide, by decide, by decide, ?_⟩
  rintro ⟨fuel, r, hr⟩
  rw [URLStore.put_stuck (by decide) fuel] at hr
  exact nomatch hr

/-- C1 (amended): `Put` terminates — in a single loop iteration — and returns
a key, with no error return, from every store state in which the candidate
key for the current count, `genKey (s.Count)`, is not already present (in
particular from every state reached from the empty store by successful
`Put`s, since the retry loop recomputes the candidate from the unchanged
count and therefore cannot make progress whenever that single candidate is
taken, however large the remaining key space is). -/
theorem put_terminates_of_candidate_free (s : URLStore) (url : String)
    (h : s.find (genKey s.Count) = none) :
    URLStore.Put 1 s url =
      some (genKey s.Count, ⟨(genKey s.Count, url) :: s.urls⟩) := by
  unfold URLStore.Put
  rw [URLStore.set_of_absent url h]

/-- C1 witness: on the empty store the free-candidate hypothesis holds and
`Put` returns the key `genKey 0` at once. -/
theorem put_terminates_of_candidate_free_witness :
    URLStore.Put 1 ⟨[]⟩ "http://example.com/a" =
      some (genKey 0, ⟨[(genKey 0, "http://example.com/a")]⟩) :=
  put_terminates_of_candidate_free ⟨[]⟩ "http://example.com/a" (by decide)

/-- C2 (counterexample): in a collision state the failed insert returns the
store unchanged, so the next iteration supplies the key generator with the
very same stale ordinal (the unchanged count) and regenerates the same
candidate key; no free key is ever found, whatever the fuel. -/
theorem put_retry_counterexample :
    (URLStore.mk [(genKey 1, "u")]).Set
        (genKey (URLStore.mk [(genKey 1, "u")]).Count) "v"
      = (false, URLStore.mk [(genKey 1, "u")]) ∧
    ¬ ∃ fuel r, URLStore.Put fuel (URLStore.mk [(genKey 1, "u")]) "w" = some r := by
  refine ⟨by decide, ?_⟩
  rintro ⟨fuel, r, hr⟩
  rw [URLStore.put_stuck (by decide) fuel] at hr
  exact nomatch hr

/-- C2 (amended): each retry of `Put`'s loop supplies the key generator with
the same stale ordinal — a failed insert leaves the store, hence the count,
unchanged — so the same candidate key is regenerated on every retry, and when
the current candidate is already taken the loop never finds a free key. -/
theorem put_stuck_on_collision (s : URLStore) (url : String) (fuel : Nat)
    (h : s.find (genKey s.Count) ≠ none) :
    URLStore.Put fuel s url = none :=
  URLStore.put_stuck h fuel

/-- C2 witness: a concrete collision state on which seven iterations of the
loop all fail. -/
theorem put_stuck_on_collision_witness :
    URLStore.Put 7 ⟨[(genKey 1, "u")]⟩ "v" = none :=
  put_stuck_on_collision ⟨[(genKey 1, "u")]⟩ "v" 7 (by decide)

/-- C6: immediately after a `Put` of `url` returns key `k`, `Get k` returns
`url` — no durable flush exists in this store, so nothing else is required. -/
theorem get_put_roundtrip (fuel : Nat) (s : URLStore) (url k : String)
    (s1 : URLStore) (h : URLStore.Put fuel s url = some (k, s1)) :
    s1.Get k = url := by
  obtain ⟨-, -, hs⟩ := URLStore.put_success h
  rw [hs]
  unfold URLStore.Get
  rw [show URLStore.find ⟨(k, url) :: s.urls⟩ k = some url from
    URLStore.find_cons_self k url s.urls]
  rfl

/-- C6 witness: `Get (Put "http://example.com/a")` on the empty store. -/
theorem get_put_roundtrip_witness :
    URLStore.Get ⟨[(genKey 0, "http://example.com/a")]⟩ (genKey 0)
      = "http://example.com/a" :=
  get_put_roundtrip 1 ⟨[]⟩ "http://example.com/a" (genKey 0)
    ⟨[(genKey 0, "http://example.com/a")]⟩ (by decide)

/-- C5: the insert-if-absent operation `Set` returns `false` and leaves the
store completely unchanged when the key is already present, and returns
`true` and inserts the (key, value) binding when the key is absent. -/
theorem set_if_absent_spec (s : URLStore) (key url : String) :
    (s.find key ≠ none → s.Set key url = (false, s)) ∧
    (s.find key = none → s.Set key url = (true, ⟨(key, url) :: s.urls⟩)) :=
  ⟨fun h => URLStore.set_of_present url h,
    fun h => URLStore.set_of_absent url h⟩

/-- C5 witness: both branches at concrete stores — a present key is refused
with the store untouched, an absent key is inserted. -/
theorem set_if_absent_spec_witness :
    URLStore.Set ⟨[("a", "b")]⟩ "a" "c" = (false, ⟨[("a", "b")]⟩) ∧
    URLStore.Set ⟨[("a", "b")]⟩ "d" "e" = (true, ⟨[("d", "e"), ("a", "b")]⟩) :=
  ⟨(set_if_absent_spec ⟨[("a", "b")]⟩ "a" "c").1 (by decide),
    (set_if_absent_spec ⟨[("a", "b")]⟩ "d" "e").2 (by decide)⟩

/-- C8: two successful sequential `Put`s on the same store are assigned
distinct keys — the second insert-if-absent only succeeds on a key that is
absent, while the first put's key is present and never removed. -/
theorem put_keys_distinct (s : URLStore) (v1 v2 : String) (f1 f2 : Nat)
    (k1 k2 : String) (s1 s2 : URLStore) (_hv : v1 ≠ v2)
    (h1 : URLStore.Put f1 s v1 = some (k1, s1))
    (h2 : URLStore.Put f2 s1 v2 = some (k2, s2)) : k1 ≠ k2 := by
  obtain ⟨-, -, hs1⟩ := URLStore.put_success h1
  obtain ⟨-, hfind2, -⟩ := URLStore.put_success h2
  intro hk
  rw [← hk, hs1, URLStore.find_cons_self k1 v1 s.urls] at hfind2
  exact nomatch hfind2

/-- C8 witness: two puts on the empty store yield `genKey 0 ≠ genKey 1`. -/
theorem put_keys_distinct_witness : genKey 0 ≠ genKey 1 :=
  put_keys_distinct ⟨[]⟩ "http://example.com/a" "http://example.com/b" 1 1
    (genKey 0) (genKey 1) ⟨[(genKey 0, "http://example.com/a")]⟩
    ⟨[(genKey 1, "http://example.com/b"), (genKey 0, "http://example.com/a")]⟩
    (by decide) (by decide) (by decide)

/-- C9: `Get` on a key that is absent from the mapping — in particular on any
key that was never put, since only successful inserts add keys (C7) — returns
the empty-string sentinel; `Get` is a total function with no error result. -/
theorem get_absent_sentinel (s : URLStore) (key : String)
    (h : s.find key = none) : s.Get key = "" := by
  unfold URLStore.Get
  rw [h]
  rfl

/-- C9 witness: a never-put key on a non-empty store. -/
theorem get_absent_sentinel_witness :
    URLStore.Get ⟨[(genKey 0, "http://example.com/a")]⟩ "nonexistent" = "" :=
  get_absent_sentinel ⟨[(genKey 0, "http://example.com/a")]⟩ "nonexistent"
    (by decide)

/-- C10: a key obtained from `Put ""` resolves, at the public interface, to
the empty string — the very sentinel `Get` returns for an unknown key — and
the `Redirect` handler therefore treats such a key as "not found" and sends
the client to the add form, exactly as for a key that was never stored. -/
theorem put_empty_indistinguishable (fuel : Nat) (s : URLStore) (k : String)
    (s1 : URLStore) (h : URLStore.Put fuel s "" = some (k, s1)) :
    s1.Get k = "" ∧ Redirect s1 k = RedirectTarget.toAddForm := by
  obtain ⟨-, -, hs⟩ := URLStore.put_success h
  have hget : s1.Get k = "" := by
    rw [hs]
    unfold URLStore.Get
    rw [show URLStore.find ⟨(k, "") :: s.urls⟩ k = some "" from
      URLStore.find_cons_self k "" s.urls]
    rfl
  refine ⟨hget, ?_⟩
  unfold Redirect
  rw [hget]
  rfl

/-- C10 witness: putting the empty value on the empty store. -/
theorem put_empty_indistinguishable_witness :
    URLStore.Get ⟨[(genKey 0, "")]⟩ (genKey 0) = "" ∧
    Redirect ⟨[(genKey 0, "")]⟩ (genKey 0) = RedirectTarget.toAddForm :=
  put_empty_indistinguishable 1 ⟨[]⟩ (genKey 0) ⟨[(genKey 0, "")]⟩ (by decide)

/-- C7: over every sequence of store operations, (i) a binding once present
is never removed and its value never changed, and (ii) the final mapping is
exactly the accepted inserts of the run — the (key, value) pairs that a
successful insert-if-absent admitted, newest first — on top of the initial
mapping; starting from the empty store, every key present was therefore
accepted via a successful insert-if-absent. -/
theorem store_append_only_provenance (s : URLStore) (ops : List Op) :
    (∀ k v, s.find k = some v → ((runOps s ops).1).find k = some v) ∧
    ((runOps s ops).1).urls = ((runOps s ops).2).reverse ++ s.urls :=
  ⟨fun k v h => runOps_preserve ops s k v h, runOps_urls ops s⟩

/-- C7 witness: a concrete run (an external `Set`, then a `Put`) preserves
the initial binding and ends with exactly the accepted inserts on top of it. -/
theorem store_append_only_provenance_witness :
    ((runOps ⟨[("a", "A")]⟩ [Op.opSet "b" "B", Op.opPut 1 "C"]).1).find "a"
      = some "A" ∧
    ((runOps ⟨[("a", "A")]⟩ [Op.opSet "b" "B", Op.opPut 1 "C"]).1).urls
      = ((runOps ⟨[("a", "A")]⟩ [Op.opSet "b" "B", Op.opPut 1 "C"]).2).reverse
          ++ [("a", "A")] :=
  ⟨(store_append_only_provenance ⟨[("a", "A")]⟩
      [Op.opSet "b" "B", Op.opPut 1 "C"]).1 "a" "A" (by decide),
    (store_append_only_provenance ⟨[("a", "A")]⟩
      [Op.opSet "b" "B", Op.opPut 1 "C"]).2⟩

/-- C3 (spec-modelled): every successful `Put`, after its insert into the
in-memory index succeeds and before it returns the key, enqueues the accepted
(key, value) record at the tail of the WriteQueue; the insert and the enqueue
are its only effects — the post state is fully determined as the old state
with exactly the new binding and exactly the one appended record. -/
theorem putQueue_enqueues (fuel : Nat) (s : QueueURLStore) (url k : String)
    (s1 : QueueURLStore) (h : QueueURLStore.Put fuel s url = some (k, s1)) :
    s1.save = s.save ++ [Record.mk k url] ∧ s1.urls = (k, url) :: s.urls := by
  induction fuel with
  | zero => exact absurd h (by simp [QueueURLStore.Put])
  | succ n ih =>
    unfold QueueURLStore.Put at h
    rcases h1 : URLStore.find ⟨s.urls⟩ (genKey s.urls.length) with _ | v
    · rw [URLStore.set_of_absent url h1] at h
      simp only [Option.some.injEq, Prod.mk.injEq] at h
      rw [← h.2, ← h.1]
      exact ⟨rfl, rfl⟩
    · rw [URLStore.set_of_present url
        (URLStore.find_ne_none ⟨s.urls⟩ (genKey s.urls.length) v h1)] at h
      exact ih h

/-- C3 witness: one put on the empty queue store enqueues exactly the
accepted record and inserts exactly the accepted binding. -/
theorem putQueue_enqueues_witness :
    (QueueURLStore.mk [(genKey 0, "v")] [Record.mk (genKey 0) "v"]).save
      = (QueueURLStore.mk [] []).save ++ [Record.mk (genKey 0) "v"] ∧
    (QueueURLStore.mk [(genKey 0, "v")] [Record.mk (genKey 0) "v"]).urls
      = (genKey 0, "v") :: (QueueURLStore.mk [] []).urls :=
  putQueue_enqueues 1 ⟨[], []⟩ "v" (genKey 0)
    ⟨[(genKey 0, "v")], [Record.mk (genKey 0) "v"]⟩ (by decide)
